import Mathlib

/-!
Verification of the frame-extraction and scroll-synchronized playback engine
of the scrolly-video component (`src/components/scrolly-video.tsx`) and the
demux helper (`src/lib/video-helpers.ts`).

The embedding models:
* the Frame Sampler arithmetic of `extractFrames` (totalFrames, frameSkip,
  the `for (frameCount = 0; frameCount < totalFrames; frameCount += frameSkip)`
  loop and the seek times `(frameCount / totalFrames) * totalDuration`);
* the extraction loop's commits, progress emissions, cancellation checks and
  teardown;
* the scroll-to-frame mapping (`useTransform` over `[0,1] -> [0, frames.length-1]`
  with clamping, followed by the change handler's negative guard and rounding);
* the canvas draw routine `drawImage` (missing-bitmap early return, clear,
  cover-fit geometry, top alignment);
* the error surface of the component's run-level try/catch and of
  `demuxVideoWithLibav`.

Numbers are modelled as exact rationals; machine floats, the DOM and timing
are outside the model.
-/

namespace ScrollyVideo

/-! ### Frame Sampler (`extractFrames`, steps 4 and 5a) -/

/-- Source: `const totalFrames = Math.floor(totalDuration * baseFps);`.
`totalDuration` and `baseFps` are nonnegative numbers, modelled as rationals;
the floor of their product is taken as a natural number. -/
def totalFrames (totalDuration baseFps : ℚ) : ℕ :=
  (Int.floor (totalDuration * baseFps)).toNat

/-- Source: `const frameSkip = Math.max(1, Math.floor(totalFrames / maxFrames));`.
Both operands are nonnegative integers, so `Math.floor` of their quotient is
natural division. -/
def frameSkip (tf maxFrames : ℕ) : ℕ :=
  max 1 (tf / maxFrames)

/-- Source: the loop header
`for (let frameCount = 0; frameCount < totalFrames; frameCount += frameSkip)`.
`sampleLoop tf skip fuel i` lists the values taken by `frameCount` starting
from `i`; `fuel` bounds the iteration count (the loop itself terminates since
`skip >= 1`, and `fuel = tf` iterations always suffice from `i = 0`). -/
def sampleLoop (tf skip : ℕ) : ℕ → ℕ → List ℕ
  | 0, _ => []
  | fuel + 1, i => if i < tf then i :: sampleLoop tf skip fuel (i + skip) else []

/-- The values of `frameCount` visited by the extraction loop. -/
def sampleIndices (tf skip : ℕ) : List ℕ :=
  sampleLoop tf skip tf 0

/-- Source: `const seekTime = (frameCount / totalFrames) * totalDuration;`. -/
def seekTime (tf : ℕ) (totalDuration : ℚ) (frameCount : ℕ) : ℚ :=
  ((frameCount : ℚ) / (tf : ℚ)) * totalDuration

/-- The ordered sequence of timestamps the Frame Sampler produces for one run:
one `seekTime` per loop iteration. -/
def sampleTimestamps (totalDuration baseFps : ℚ) (maxFrames : ℕ) : List ℚ :=
  let tf := totalFrames totalDuration baseFps
  (sampleIndices tf (frameSkip tf maxFrames)).map (seekTime tf totalDuration)

/-! ### Scroll-to-Frame Mapper (`useTransform` + `frameIndex.on("change", ...)`) -/

/-- Source: framer-motion's `clamp(min, max, v) => Math.min(Math.max(v, min), max)`,
used by `useTransform` with the option `{ clamp: true }`. -/
def clampQ (lo hi v : ℚ) : ℚ := min (max v lo) hi

/-- Source: `useTransform(scrollYProgress, [0, 1], [0, frames.length - 1], { clamp: true })`.
The input range `[0,1]` makes the interpolation progress equal to the clamped scroll
progress, and the output is the linear mix `0 + (frames.length - 1 - 0) * t`. -/
def transformValue (frameCount : ℕ) (progress : ℚ) : ℚ :=
  clampQ 0 1 progress * ((frameCount : ℚ) - 1)

/-- Source: the change handler
`(v) => { if (v < 0 || v == null) v = 0; const idx = Math.round(v); ... }`.
`Math.round` rounds half toward positive infinity, as does `round` on `ℚ`. -/
def frameIndexOnChange (frameCount : ℕ) (progress : ℚ) : ℤ :=
  let v := transformValue frameCount progress
  let v2 := if v < 0 then 0 else v
  round v2

/-! ### Canvas Renderer (`drawImage`) -/

/-- An ImageBitmap: intrinsic width and height. -/
structure Bitmap where
  width : ℚ
  height : ℚ
deriving DecidableEq

/-- A 2D-context call issued by `drawImage`. -/
inductive CanvasOp where
  | clearRect (x y w h : ℚ)
  | drawImageOp (bitmap : Bitmap) (dx dy dWidth dHeight : ℚ)
deriving DecidableEq

/-- Source: the cover-fit block of `drawImage`:
`let drawWidth = canvasWidth; let drawHeight = canvasWidth / aspectRatio;
if (drawHeight < canvasHeight) { drawHeight = canvasHeight; drawWidth = canvasHeight * aspectRatio; }`.
Returns `(drawWidth, drawHeight)`. -/
def coverFit (bitmap : Bitmap) (canvasWidth canvasHeight : ℚ) : ℚ × ℚ :=
  let aspectRatio := bitmap.width / bitmap.height
  let drawWidth := canvasWidth
  let drawHeight := canvasWidth / aspectRatio
  if drawHeight < canvasHeight then (canvasHeight * aspectRatio, canvasHeight)
  else (drawWidth, drawHeight)

/-- Source: `drawImage` in scrolly-video.tsx. If no bitmap exists at `index`
(`const bitmap = frames[index]; if (!bitmap) return;`) it returns before touching
the context; otherwise it clears the whole canvas and draws the cover-fitted
bitmap at `offsetX = (canvasWidth - drawWidth) / 2`, `offsetY = 0`. The returned
list records the context calls in execution order. -/
def drawImage (frames : List Bitmap) (canvasWidth canvasHeight : ℚ) (index : ℕ) :
    List CanvasOp :=
  match frames.get? index with
  | none => []
  | some bitmap =>
    let wh := coverFit bitmap canvasWidth canvasHeight
    let offsetX := (canvasWidth - wh.1) / 2
    [CanvasOp.clearRect 0 0 canvasWidth canvasHeight,
     CanvasOp.drawImageOp bitmap offsetX 0 wh.1 wh.2]

/-- Effect of one context call on the canvas content, where the content is the
list of surviving draw calls since the last full clear. The only `clearRect`
this component issues covers the whole canvas, so a clear wipes the content. -/
def applyOp (content : List CanvasOp) (op : CanvasOp) : List CanvasOp :=
  match op with
  | CanvasOp.clearRect _ _ _ _ => []
  | op => content ++ [op]

/-- Effect of a sequence of context calls on the canvas content. -/
def applyOps (content : List CanvasOp) (ops : List CanvasOp) : List CanvasOp :=
  ops.foldl applyOp content

/-! ### Extraction run: commits, progress events, cancellation, teardown

`extractFrames` runs the sampler loop; at each iteration it checks the
cooperative `isCancelled` flag, seeks, decodes, and on success pushes the
bitmap and emits `Math.floor((frameArray.length / maxFrames) * 100)` when
that value is below 100.  After the loop it emits 100, and commits the array
via `setFrames` only if the flag is still unset.  The cleanup sets the flag,
closes every bitmap held in the array and resets the visible store.

The flag is set at most once and never reset during a run.  The cleanup that
sets it can fire at any await of the loop, which gives three schedules:
never; while the loop is parked at a boundary/seek/buffer await, so the checks
of iteration `c` onward read `true` and nothing of iteration `c` is committed;
or while iteration `c`'s `await createImageBitmap` is in flight, in which case
the cleanup's close pass runs over the frames decoded so far and reassigns
`frameArray = []`, after which the resumed continuation still pushes iteration
`c`'s bitmap into the reassigned array (line 295) and emits its progress —
that bitmap is never closed.  Bitmaps are identified by the ordinal of the
iteration that decoded them.

A separate mount-time effect (scrolly-video.tsx lines 164–167) schedules
`setTimeout(() => onLoadProgress?.(100), 500)`, which injects one more 100
into the caller's progress channel concurrently with the run; `observedProgress`
composes the two emitters. -/

/-- Whether the `isCancelled` check at boundary `k` reads `true`. -/
def cancelObserved (cancelAt : Option ℕ) (k : ℕ) : Bool :=
  match cancelAt with
  | none => false
  | some c => decide (c ≤ k)

/-- Source: the `for` loop body of `extractFrames` (steps 5, 5a–5f), with the
seek/buffer waits abstracted away (they produce no caller-visible events).
Arguments: remaining sampled indices, iteration ordinal `k`, accumulated
`frameArray`, accumulated emitted progress values. Returns the final
`frameArray`, the emitted values, and the boundary at which the loop ended. -/
def extractLoop (maxFrames : ℕ) (cancelAt : Option ℕ) (decodeOk : ℕ → Bool) :
    List ℕ → ℕ → List ℕ → List ℕ → List ℕ × List ℕ × ℕ
  | [], k, frameArray, events => (frameArray, events, k)
  | _i :: rest, k, frameArray, events =>
    if cancelObserved cancelAt k then (frameArray, events, k)
    else if decodeOk k then
      let frameArray2 := frameArray ++ [k]
      let progress := frameArray2.length * 100 / maxFrames
      extractLoop maxFrames cancelAt decodeOk rest (k + 1) frameArray2
        (if progress < 100 then events ++ [progress] else events)
    else
      extractLoop maxFrames cancelAt decodeOk rest (k + 1) frameArray events

/-- When the cleanup that cancels a run fires, relative to the loop's awaits. -/
inductive CancelSchedule where
  /-- the `isCancelled` flag is never set while the run is alive -/
  | never
  /-- the flag is set while the loop is parked at a boundary, seek or buffer
  await: it is first read `true` by the checks of iteration `c` -/
  | atBoundary (c : ℕ)
  /-- the flag is set while iteration `c`'s `await createImageBitmap` is in
  flight (realizable only when the loop reaches iteration `c`, i.e.
  `c < samples.length`) -/
  | midDecode (c : ℕ)
deriving DecidableEq

/-- Outcome of one extraction run. -/
structure RunResult where
  /-- every bitmap the run decoded and pushed (into either array incarnation) -/
  committed : List ℕ
  /-- `onLoadProgress` values emitted by the run itself, in order -/
  events : List ℕ
  /-- frames passed to `setFrames` and hence visible to consumers -/
  visible : List ℕ
  /-- bitmaps closed by the cleanup's close pass over `frameArray` -/
  closed : List ℕ
  /-- bitmaps pushed after the close pass (never closed by anyone) -/
  leaked : List ℕ
deriving DecidableEq

/-- Source: `extractFrames` steps 5–6 plus the effect cleanup (lines 321–327).
After the loop, `onLoadProgress?.(100)` is called unconditionally;
`setFrames(frameArray)` runs only `if (!isCancelled)`.  The cleanup closes the
bitmaps held in `frameArray` at the moment it runs and reassigns the array:
under `atBoundary` that is every bitmap the run decoded, but under
`midDecode c` the bitmap whose creation was in flight resolves afterwards, is
pushed into the reassigned empty array (so the emitted progress is computed
from length 1), and is never closed. -/
def extractRun (samples : List ℕ) (maxFrames : ℕ) (sched : CancelSchedule)
    (decodeOk : ℕ → Bool) : RunResult :=
  match sched with
  | CancelSchedule.never =>
    let r := extractLoop maxFrames none decodeOk samples 0 [] []
    { committed := r.1, events := r.2.1 ++ [100], visible := r.1,
      closed := [], leaked := [] }
  | CancelSchedule.atBoundary c =>
    let r := extractLoop maxFrames (some c) decodeOk samples 0 [] []
    if cancelObserved (some c) r.2.2 then
      { committed := r.1, events := r.2.1 ++ [100], visible := [],
        closed := r.1, leaked := [] }
    else
      -- the flag landed only after the loop's last await; the synchronous
      -- tail (progress 100, setFrames) had already run
      { committed := r.1, events := r.2.1 ++ [100], visible := r.1,
        closed := [], leaked := [] }
  | CancelSchedule.midDecode c =>
    let r := extractLoop maxFrames none decodeOk (samples.take c) 0 [] []
    if c < samples.length ∧ decodeOk c = true then
      -- the in-flight createImageBitmap resolves after the close pass: its
      -- bitmap is pushed into the reassigned array (length 1), its progress
      -- `1 * 100 / maxFrames` is emitted when below 100, and the next check
      -- breaks the loop
      { committed := r.1 ++ [c],
        events := r.2.1 ++
          (if 1 * 100 / maxFrames < 100 then [1 * 100 / maxFrames] else []) ++ [100],
        visible := [], closed := r.1, leaked := [c] }
    else
      -- the in-flight createImageBitmap rejects (or no iteration `c` exists):
      -- the per-frame catch logs and nothing more is pushed
      { committed := r.1, events := r.2.1 ++ [100], visible := [],
        closed := r.1, leaked := [] }

/-- Source: scrolly-video.tsx lines 164–167:
`useEffect(() => { drawImage(0); setTimeout(() => { onLoadProgress?.(100); }, 500); }, [drawImage]);`
— the mount effect schedules a timer that, 500 ms later, invokes the caller's
`onLoadProgress` with 100, concurrently with the extraction run. -/
def mountTimerValue : ℕ := 100

/-- The progress values the caller observes on its single `onLoadProgress`
channel during one run: the run's own emissions with the mount timer's 100
interleaved at the position where the 500 ms timer fires. -/
def observedProgress (timerPos : ℕ) (runEvents : List ℕ) : List ℕ :=
  runEvents.take timerPos ++ [mountTimerValue] ++ runEvents.drop timerPos

/-! ### Error surface -/

/-- A callback invocation observed by the component's caller.  The component's
only callback prop is `onLoadProgress`; `errorSignal` stands for an invocation
of an error channel, which the component would need in order to surface a
run-level failure. -/
inductive CallerEvent where
  | progress (value : ℕ)
  | errorSignal
deriving DecidableEq

/-- Source: the `try { ... } catch (error) { console.error(...) }` wrapping the
whole of `extractFrames`. `metadataOk = false` models a run-level failure
thrown while probing the source (before the loop): control jumps to the catch,
which only logs; the caller receives no callback at all and `setFrames` is
never reached, so the visible store keeps its initial `[]`. -/
def extractFramesCallerEvents (metadataOk : Bool) (samples : List ℕ)
    (maxFrames : ℕ) (cancelAt : Option ℕ) (decodeOk : ℕ → Bool) :
    List CallerEvent × List ℕ :=
  if metadataOk then
    let sched := match cancelAt with
      | none => CancelSchedule.never
      | some c => CancelSchedule.atBoundary c
    let r := extractRun samples maxFrames sched decodeOk
    (r.events.map CallerEvent.progress, r.visible)
  else
    ([], [])

/-- A demuxed video packet (src/lib/video-helpers.ts). -/
structure Packet where
  pts : ℤ
  dts : ℤ
  isKey : Bool
deriving DecidableEq

/-- Result of a successful demux. -/
structure DemuxResult where
  packets : List Packet
  hasExtradata : Bool
  codecName : String
deriving DecidableEq

/-- Source: `demuxVideoWithLibav` in src/lib/video-helpers.ts. A failed fetch
(`if (!resp.ok) throw new Error(...)`) and a missing video track
(`throw new Error("No video track found")`) reject the returned promise,
modelled as `Except.error`; on success the collected video packets are
returned sorted by ascending pts. -/
def demuxVideoWithLibav (fetchOk : Bool) (hasVideoTrack : Bool)
    (packets : List Packet) (hasExtradata : Bool) (codecName : String) :
    Except String DemuxResult :=
  if fetchOk = false then Except.error "Failed to fetch"
  else if hasVideoTrack = false then Except.error "No video track found"
  else Except.ok
    { packets := packets.mergeSort (fun a b => decide (a.pts ≤ b.pts)),
      hasExtradata := hasExtradata, codecName := codecName }

/-! ### Basic lemmas about the sampler loop -/

theorem sampleLoop_mem_bounds {tf skip : ℕ} :
    ∀ {fuel i j : ℕ}, j ∈ sampleLoop tf skip fuel i → i ≤ j ∧ j < tf := by
  intro fuel
  induction fuel with
  | zero => intro i j h; simp [sampleLoop] at h
  | succ fuel ih =>
    intro i j h
    simp only [sampleLoop] at h
    by_cases hlt : i < tf
    · simp only [if_pos hlt, List.mem_cons] at h
      rcases h with rfl | h
      · exact ⟨le_refl _, hlt⟩
      · rcases ih h with ⟨h1, h2⟩
        exact ⟨le_trans (Nat.le_add_right i skip) h1, h2⟩
    · simp [if_neg hlt] at h

theorem sampleLoop_pairwise {tf skip : ℕ} (hskip : 0 < skip) :
    ∀ (fuel i : ℕ), (sampleLoop tf skip fuel i).Pairwise (· < ·) := by
  intro fuel
  induction fuel with
  | zero => intro i; simp [sampleLoop]
  | succ fuel ih =>
    intro i
    simp only [sampleLoop]
    by_cases hlt : i < tf
    · simp only [if_pos hlt]
      refine List.pairwise_cons.mpr ⟨?_, ih (i + skip)⟩
      intro j hj
      have := (sampleLoop_mem_bounds hj).1
      omega
    · simp [if_neg hlt]

theorem sampleLoop_length_bound {tf skip : ℕ} :
    ∀ (fuel i : ℕ), (sampleLoop tf skip fuel i).length = 0 ∨
      ((sampleLoop tf skip fuel i).length - 1) * skip + i < tf := by
  intro fuel
  induction fuel with
  | zero => intro i; left; simp [sampleLoop]
  | succ fuel ih =>
    intro i
    simp only [sampleLoop]
    by_cases hlt : i < tf
    · simp only [if_pos hlt, List.length_cons, Nat.add_sub_cancel]
      right
      rcases ih (i + skip) with h | h
      · rw [h]; simpa using hlt
      · rcases Nat.eq_zero_or_pos (sampleLoop tf skip fuel (i + skip)).length with h0 | hpos
        · rw [h0] at h
          simp only [Nat.zero_sub, Nat.zero_mul, Nat.zero_add] at h
          rw [h0]
          simpa using hlt
        · obtain ⟨m, hm⟩ : ∃ m, (sampleLoop tf skip fuel (i + skip)).length = m + 1 :=
            ⟨(sampleLoop tf skip fuel (i + skip)).length - 1, by omega⟩
          rw [hm] at h ⊢
          simp only [Nat.add_sub_cancel] at h
          have hks : (m + 1) * skip = m * skip + skip := Nat.succ_mul m skip
          omega
    · left; simp [if_neg hlt]

theorem sampleLoop_mem_dvd {tf skip : ℕ} :
    ∀ {fuel i j : ℕ}, j ∈ sampleLoop tf skip fuel i → skip ∣ (j - i) := by
  intro fuel
  induction fuel with
  | zero => intro i j h; simp [sampleLoop] at h
  | succ fuel ih =>
    intro i j h
    simp only [sampleLoop] at h
    by_cases hlt : i < tf
    · simp only [if_pos hlt, List.mem_cons] at h
      rcases h with rfl | h
      · simp
      · have hji := (sampleLoop_mem_bounds h).1
        rcases ih h with ⟨k, hk⟩
        have hks : skip * (k + 1) = skip * k + skip := Nat.mul_succ skip k
        exact ⟨k + 1, by omega⟩
    · simp [if_neg hlt] at h

theorem sampleLoop_complete {tf skip : ℕ} (hskip : 0 < skip) :
    ∀ (fuel i j : ℕ), tf - i ≤ fuel * skip → i ≤ j → j < tf →
      skip ∣ (j - i) → j ∈ sampleLoop tf skip fuel i := by
  intro fuel
  induction fuel with
  | zero => intro i j hfuel hij hjtf _; omega
  | succ fuel ih =>
    intro i j hfuel hij hjtf hdvd
    have hlt : i < tf := lt_of_le_of_lt hij hjtf
    simp only [sampleLoop, if_pos hlt]
    rcases Nat.eq_or_lt_of_le hij with rfl | hij'
    · exact List.mem_cons_self _ _
    · right
      rcases hdvd with ⟨k, hk⟩
      have hk1 : k ≠ 0 := by
        rintro rfl
        rw [Nat.mul_zero] at hk
        omega
      obtain ⟨m, rfl⟩ : ∃ m, k = m + 1 := ⟨k - 1, by omega⟩
      have hks : skip * (m + 1) = skip * m + skip := Nat.mul_succ skip m
      have hmul : (fuel + 1) * skip = fuel * skip + skip := Nat.succ_mul fuel skip
      exact ih (i + skip) j (by omega) (by omega) hjtf ⟨m, by omega⟩

/-- The loop visits exactly the multiples of `skip` below `tf` (for the
stride `skip >= 1` the code always uses, and fuel `tf` as in `sampleIndices`). -/
theorem mem_sampleIndices_iff {tf skip : ℕ} (hskip : 0 < skip) (j : ℕ) :
    j ∈ sampleIndices tf skip ↔ j < tf ∧ skip ∣ j := by
  constructor
  · intro h
    refine ⟨(sampleLoop_mem_bounds h).2, ?_⟩
    simpa using sampleLoop_mem_dvd h
  · rintro ⟨h1, h2⟩
    have htf : tf ≤ tf * skip := by
      have := Nat.mul_le_mul_left tf hskip
      omega
    exact sampleLoop_complete hskip tf 0 j (by omega) (Nat.zero_le j) h1 (by simpa using h2)

theorem frameSkip_pos (tf mf : ℕ) : 0 < frameSkip tf mf :=
  lt_of_lt_of_le Nat.one_pos (le_max_left 1 (tf / mf))

theorem sampleIndices_length_le (tf mf : ℕ) (hmf : 0 < mf) :
    (sampleIndices tf (frameSkip tf mf)).length ≤ 2 * mf - 1 := by
  rcases @sampleLoop_length_bound tf (frameSkip tf mf) tf 0 with h | h
  · unfold sampleIndices
    omega
  · unfold sampleIndices
    set L := (sampleLoop tf (frameSkip tf mf) tf 0).length with hL
    by_contra hcon
    push_neg at hcon
    rcases Nat.lt_or_ge tf mf with hlt | hge
    · have hdiv : tf / mf = 0 := Nat.div_eq_of_lt hlt
      have hsk1 : frameSkip tf mf = 1 := by rw [frameSkip, hdiv]; omega
      rw [hsk1] at h
      omega
    · set q := tf / mf with hq
      have hq1 : 1 ≤ q := (Nat.one_le_div_iff hmf).mpr hge
      have hskq : frameSkip tf mf = q := by rw [frameSkip]; omega
      rw [hskq] at h
      have hmod : mf * q + tf % mf = tf := Nat.div_add_mod tf mf
      have hmodlt : tf % mf < mf := Nat.mod_lt tf hmf
      have hsplit : 2 * mf - 1 = mf + (mf - 1) := by omega
      have e1 : (2 * mf - 1) * q = mf * q + (mf - 1) * q := by
        rw [hsplit, Nat.add_mul]
      have e2 : (mf - 1) * 1 ≤ (mf - 1) * q := Nat.mul_le_mul_left (mf - 1) hq1
      have e3 : (2 * mf - 1) * q ≤ (L - 1) * q := Nat.mul_le_mul_right q (by omega)
      omega

/-! ### Lemmas about the extraction loop -/

theorem extractLoop_committed_append (mf : ℕ) (ca : Option ℕ) (dok : ℕ → Bool) :
    ∀ (samples : List ℕ) (k : ℕ) (fa evs : List ℕ),
      ∃ nf, (extractLoop mf ca dok samples k fa evs).1 = fa ++ nf := by
  intro samples
  induction samples with
  | nil => intro k fa evs; exact ⟨[], by simp [extractLoop]⟩
  | cons i rest ih =>
    intro k fa evs
    simp only [extractLoop]
    by_cases hc : cancelObserved ca k = true
    · simp only [if_pos hc]
      exact ⟨[], by simp⟩
    · simp only [if_neg hc]
      by_cases hd : dok k = true
      · simp only [if_pos hd]
        rcases ih (k + 1) (fa ++ [k])
          (if (fa ++ [k]).length * 100 / mf < 100 then evs ++ [(fa ++ [k]).length * 100 / mf]
           else evs) with ⟨nf, hnf⟩
        refine ⟨[k] ++ nf, ?_⟩
        rw [← List.append_assoc]
        exact hnf
      · simp only [if_neg hd]
        exact ih (k + 1) fa evs


theorem extractLoop_events_inv (mf : ℕ) (ca : Option ℕ) (dok : ℕ → Bool) :
    ∀ (samples : List ℕ) (k : ℕ) (fa evs : List ℕ),
      evs.Pairwise (· ≤ ·) →
      (∀ e ∈ evs, e ≤ 99 ∧ ∃ c, 1 ≤ c ∧ c ≤ fa.length ∧ e = c * 100 / mf) →
      ((extractLoop mf ca dok samples k fa evs).2.1.Pairwise (· ≤ ·) ∧
        ∀ e ∈ (extractLoop mf ca dok samples k fa evs).2.1,
          e ≤ 99 ∧ ∃ c, 1 ≤ c ∧ c ≤ (extractLoop mf ca dok samples k fa evs).1.length ∧
            e = c * 100 / mf) := by
  intro samples
  induction samples with
  | nil =>
    intro k fa evs h1 h2
    simpa [extractLoop] using ⟨h1, h2⟩
  | cons i rest ih =>
    intro k fa evs h1 h2
    simp only [extractLoop]
    by_cases hc : cancelObserved ca k = true
    · simp only [if_pos hc]
      exact ⟨h1, h2⟩
    · simp only [if_neg hc]
      by_cases hd : dok k = true
      · simp only [if_pos hd]
        by_cases hlt : (fa ++ [k]).length * 100 / mf < 100
        · simp only [if_pos hlt]
          apply ih
          · refine List.pairwise_append.mpr ⟨h1, List.pairwise_singleton _ _, ?_⟩
            intro a ha b hb
            rcases List.mem_singleton.mp hb with rfl
            rcases h2 a ha with ⟨_, c, hc1, hc2, rfl⟩
            have hm : c * 100 ≤ (fa ++ [k]).length * 100 := by
              apply Nat.mul_le_mul_right
              simp only [List.length_append, List.length_singleton]
              omega
            exact Nat.div_le_div_right hm
          · intro e he
            rcases List.mem_append.mp he with he | he
            · rcases h2 e he with ⟨he99, c, hc1, hc2, hce⟩
              refine ⟨he99, c, hc1, ?_, hce⟩
              simp only [List.length_append, List.length_singleton]
              omega
            · rcases List.mem_singleton.mp he with rfl
              exact ⟨by omega, (fa ++ [k]).length, by simp, le_refl _, rfl⟩
        · simp only [if_neg hlt]
          apply ih
          · exact h1
          · intro e he
            rcases h2 e he with ⟨he99, c, hc1, hc2, hce⟩
            refine ⟨he99, c, hc1, ?_, hce⟩
            simp only [List.length_append, List.length_singleton]
            omega
      · simp only [if_neg hd]
        exact ih (k + 1) fa evs h1 h2

theorem extractLoop_end_boundary (mf : ℕ) (ca : Option ℕ) (dok : ℕ → Bool) :
    ∀ (samples : List ℕ) (k : ℕ) (fa evs : List ℕ),
      (extractLoop mf ca dok samples k fa evs).2.2 = k + samples.length ∨
      cancelObserved ca (extractLoop mf ca dok samples k fa evs).2.2 = true := by
  intro samples
  induction samples with
  | nil => intro k fa evs; left; simp [extractLoop]
  | cons i rest ih =>
    intro k fa evs
    simp only [extractLoop]
    by_cases hc : cancelObserved ca k = true
    · simp only [if_pos hc]
      right
      exact hc
    · simp only [if_neg hc]
      by_cases hd : dok k = true
      · simp only [if_pos hd]
        rcases ih (k + 1) (fa ++ [k])
          (if (fa ++ [k]).length * 100 / mf < 100 then evs ++ [(fa ++ [k]).length * 100 / mf]
           else evs) with h | h
        · left
          rw [h]
          simp only [List.length_cons]
          omega
        · right
          exact h
      · simp only [if_neg hd]
        rcases ih (k + 1) fa evs with h | h
        · left
          rw [h]
          simp only [List.length_cons]
          omega
        · right
          exact h

theorem extractLoop_committed_lt (mf c : ℕ) (dok : ℕ → Bool) :
    ∀ (samples : List ℕ) (k : ℕ) (fa evs : List ℕ),
      (∀ j ∈ fa, j < c) →
      ∀ j ∈ (extractLoop mf (some c) dok samples k fa evs).1, j < c := by
  intro samples
  induction samples with
  | nil => intro k fa evs hfa; simpa [extractLoop] using hfa
  | cons i rest ih =>
    intro k fa evs hfa
    simp only [extractLoop]
    by_cases hc : cancelObserved (some c) k = true
    · simp only [if_pos hc]
      exact hfa
    · simp only [if_neg hc]
      have hkc : k < c := by
        simp only [cancelObserved, decide_eq_true_eq] at hc
        omega
      by_cases hd : dok k = true
      · simp only [if_pos hd]
        apply ih
        intro j hj
        rcases List.mem_append.mp hj with hj | hj
        · exact hfa j hj
        · rcases List.mem_singleton.mp hj with rfl
          exact hkc
      · simp only [if_neg hd]
        exact ih (k + 1) fa evs hfa

theorem extractLoop_committed_length (mf : ℕ) (ca : Option ℕ) (dok : ℕ → Bool) :
    ∀ (samples : List ℕ) (k : ℕ) (fa evs : List ℕ),
      (extractLoop mf ca dok samples k fa evs).1.length ≤ fa.length + samples.length := by
  intro samples
  induction samples with
  | nil => intro k fa evs; simp [extractLoop]
  | cons i rest ih =>
    intro k fa evs
    simp only [extractLoop]
    by_cases hc : cancelObserved ca k = true
    · simp only [if_pos hc, List.length_cons]
      omega
    · simp only [if_neg hc]
      by_cases hd : dok k = true
      · simp only [if_pos hd]
        have := ih (k + 1) (fa ++ [k])
          (if (fa ++ [k]).length * 100 / mf < 100 then evs ++ [(fa ++ [k]).length * 100 / mf]
           else evs)
        simp only [List.length_append, List.length_singleton, List.length_cons,
          List.length_nil] at this ⊢
        omega
      · simp only [if_neg hd]
        have := ih (k + 1) fa evs
        simp only [List.length_cons]
        omega

theorem extractLoop_all_fail (mf : ℕ) (ca : Option ℕ) (dok : ℕ → Bool)
    (hdok : ∀ j, dok j = false) :
    ∀ (samples : List ℕ) (k : ℕ) (fa evs : List ℕ),
      (extractLoop mf ca dok samples k fa evs).1 = fa ∧
      (extractLoop mf ca dok samples k fa evs).2.1 = evs := by
  intro samples
  induction samples with
  | nil => intro k fa evs; simp [extractLoop]
  | cons i rest ih =>
    intro k fa evs
    simp only [extractLoop]
    by_cases hc : cancelObserved ca k = true
    · simp [hc]
    · simp only [if_neg hc, hdok k, Bool.false_eq_true, if_false]
      exact ih (k + 1) fa evs

theorem extractLoop_committed_bound (mf : ℕ) (ca : Option ℕ) (dok : ℕ → Bool) :
    ∀ (samples : List ℕ) (k : ℕ) (fa evs : List ℕ),
      ∀ j ∈ (extractLoop mf ca dok samples k fa evs).1,
        j ∈ fa ∨ (k ≤ j ∧ j < k + samples.length) := by
  intro samples
  induction samples with
  | nil =>
    intro k fa evs j hj
    simp only [extractLoop] at hj
    exact Or.inl hj
  | cons i rest ih =>
    intro k fa evs j hj
    simp only [extractLoop] at hj
    by_cases hcb : cancelObserved ca k = true
    · rw [if_pos hcb] at hj
      exact Or.inl hj
    · rw [if_neg hcb] at hj
      by_cases hd : dok k = true
      · rw [if_pos hd] at hj
        rcases ih (k + 1) (fa ++ [k]) _ j hj with hj2 | hj2
        · rcases List.mem_append.mp hj2 with hj3 | hj3
          · exact Or.inl hj3
          · rcases List.mem_singleton.mp hj3 with rfl
            right
            simp only [List.length_cons]
            omega
        · right
          simp only [List.length_cons]
          omega
      · rw [if_neg hd] at hj
        rcases ih (k + 1) fa evs j hj with hj2 | hj2
        · exact Or.inl hj2
        · right
          simp only [List.length_cons]
          omega

theorem extractRun_never_committed (samples : List ℕ) (mf : ℕ) (dok : ℕ → Bool) :
    (extractRun samples mf CancelSchedule.never dok).committed =
      (extractLoop mf none dok samples 0 [] []).1 := rfl

theorem extractRun_never_events (samples : List ℕ) (mf : ℕ) (dok : ℕ → Bool) :
    (extractRun samples mf CancelSchedule.never dok).events =
      (extractLoop mf none dok samples 0 [] []).2.1 ++ [100] := rfl

theorem extractRun_atBoundary_cancelled (samples : List ℕ) (mf c : ℕ) (dok : ℕ → Bool)
    (h : cancelObserved (some c) (extractLoop mf (some c) dok samples 0 [] []).2.2 = true) :
    extractRun samples mf (CancelSchedule.atBoundary c) dok =
      { committed := (extractLoop mf (some c) dok samples 0 [] []).1,
        events := (extractLoop mf (some c) dok samples 0 [] []).2.1 ++ [100],
        visible := [],
        closed := (extractLoop mf (some c) dok samples 0 [] []).1,
        leaked := [] } := by
  unfold extractRun
  dsimp only
  rw [if_pos h]

theorem extractRun_midDecode_pos (samples : List ℕ) (mf c : ℕ) (dok : ℕ → Bool)
    (h : c < samples.length ∧ dok c = true) :
    extractRun samples mf (CancelSchedule.midDecode c) dok =
      { committed := (extractLoop mf none dok (samples.take c) 0 [] []).1 ++ [c],
        events := (extractLoop mf none dok (samples.take c) 0 [] []).2.1 ++
          (if 1 * 100 / mf < 100 then [1 * 100 / mf] else []) ++ [100],
        visible := [],
        closed := (extractLoop mf none dok (samples.take c) 0 [] []).1,
        leaked := [c] } := by
  unfold extractRun
  dsimp only
  rw [if_pos h]

theorem extractRun_midDecode_neg (samples : List ℕ) (mf c : ℕ) (dok : ℕ → Bool)
    (h : ¬ (c < samples.length ∧ dok c = true)) :
    extractRun samples mf (CancelSchedule.midDecode c) dok =
      { committed := (extractLoop mf none dok (samples.take c) 0 [] []).1,
        events := (extractLoop mf none dok (samples.take c) 0 [] []).2.1 ++ [100],
        visible := [],
        closed := (extractLoop mf none dok (samples.take c) 0 [] []).1,
        leaked := [] } := by
  unfold extractRun
  dsimp only
  rw [if_neg h]

theorem extractRun_events_getLast (samples : List ℕ) (mf : ℕ) (sched : CancelSchedule)
    (dok : ℕ → Bool) :
    (extractRun samples mf sched dok).events.getLast? = some 100 := by
  cases sched with
  | never =>
    rw [extractRun_never_events]
    exact List.getLast?_concat _
  | atBoundary c =>
    unfold extractRun
    dsimp only
    split
    · exact List.getLast?_concat _
    · exact List.getLast?_concat _
  | midDecode c =>
    unfold extractRun
    dsimp only
    split
    · exact List.getLast?_concat _
    · exact List.getLast?_concat _

theorem extractRun_committed_length_le (samples : List ℕ) (mf : ℕ)
    (sched : CancelSchedule) (dok : ℕ → Bool) :
    (extractRun samples mf sched dok).committed.length ≤ samples.length := by
  cases sched with
  | never =>
    rw [extractRun_never_committed]
    have h := extractLoop_committed_length mf none dok samples 0 [] []
    simpa using h
  | atBoundary c =>
    have h := extractLoop_committed_length mf (some c) dok samples 0 [] []
    simp only [List.length_nil, Nat.zero_add] at h
    unfold extractRun
    dsimp only
    split
    · exact h
    · exact h
  | midDecode c =>
    have h := extractLoop_committed_length mf none dok (samples.take c) 0 [] []
    simp only [List.length_nil, Nat.zero_add] at h
    have htake : (samples.take c).length = min c samples.length := List.length_take c samples
    unfold extractRun
    dsimp only
    split
    · rename_i hcond
      obtain ⟨hc1, -⟩ := hcond
      rw [List.length_append]
      simp only [List.length_singleton]
      omega
    · exact le_trans h (by omega)

theorem totalFrames_pos_duration {d r : ℚ} (hd : 0 ≤ d)
    (h : 0 < totalFrames d r) : 0 < d := by
  rcases lt_or_eq_of_le hd with hlt | heq
  · exact hlt
  · exfalso
    rw [← heq] at h
    simp [totalFrames] at h

/-! ### The claims -/

/-- C1: for every `duration >= 0`, `baseRate > 0` and `maxFrames > 0`, the Frame
Sampler's output is exactly the sequence of timestamps
`t_i = (i / totalFrames) * duration` for `i = 0, skip, 2*skip, ...` while
`i < totalFrames` (the visited `i` are exactly the multiples of `skip` below
`totalFrames`); consequently every timestamp lies in `[0, duration)`, the
sequence is strictly increasing, and for `duration = 0` (so `totalFrames = 0`)
the sequence is empty — the sampler is a total function, so no error is raised. -/
theorem c1_frame_sampler (d r : ℚ) (mf : ℕ) (hd : 0 ≤ d) (_hr : 0 < r) (_hmf : 0 < mf) :
    (∀ t ∈ sampleTimestamps d r mf, 0 ≤ t ∧ t < d) ∧
    (sampleTimestamps d r mf).Pairwise (· < ·) ∧
    (d = 0 → sampleTimestamps d r mf = []) ∧
    sampleTimestamps d r mf =
      (sampleIndices (totalFrames d r) (frameSkip (totalFrames d r) mf)).map
        (fun i : ℕ => ((i : ℚ) / ((totalFrames d r : ℕ) : ℚ)) * d) ∧
    (∀ j : ℕ, j ∈ sampleIndices (totalFrames d r) (frameSkip (totalFrames d r) mf) ↔
      (j < totalFrames d r ∧ frameSkip (totalFrames d r) mf ∣ j)) := by
  have hskpos := frameSkip_pos (totalFrames d r) mf
  refine ⟨?_, ?_, ?_, ?_, fun j => mem_sampleIndices_iff hskpos j⟩
  · intro t ht
    unfold sampleTimestamps at ht
    simp only [List.mem_map] at ht
    obtain ⟨j, hj, rfl⟩ := ht
    have hjtf : j < totalFrames d r := (sampleLoop_mem_bounds hj).2
    have htfpos : 0 < totalFrames d r := by omega
    have hdpos : 0 < d := totalFrames_pos_duration hd htfpos
    have htfq : (0 : ℚ) < ((totalFrames d r : ℕ) : ℚ) := by exact_mod_cast htfpos
    constructor
    · exact mul_nonneg (div_nonneg (Nat.cast_nonneg j) (le_of_lt htfq)) hd
    · unfold seekTime
      have hjq : ((j : ℕ) : ℚ) < ((totalFrames d r : ℕ) : ℚ) := by exact_mod_cast hjtf
      have h1 : ((j : ℕ) : ℚ) / ((totalFrames d r : ℕ) : ℚ) < 1 := (div_lt_one htfq).mpr hjq
      calc ((j : ℕ) : ℚ) / ((totalFrames d r : ℕ) : ℚ) * d
          < 1 * d := mul_lt_mul_of_pos_right h1 hdpos
        _ = d := one_mul d
  · unfold sampleTimestamps
    rcases Nat.eq_zero_or_pos (totalFrames d r) with htf0 | htfpos
    · rw [htf0]
      simp [sampleIndices, sampleLoop]
    · have hdpos : 0 < d := totalFrames_pos_duration hd htfpos
      have htfq : (0 : ℚ) < ((totalFrames d r : ℕ) : ℚ) := by exact_mod_cast htfpos
      refine List.Pairwise.map _ ?_ (sampleLoop_pairwise hskpos _ _)
      intro a c hac
      unfold seekTime
      have hq : ((a : ℕ) : ℚ) < ((c : ℕ) : ℚ) := by exact_mod_cast hac
      have hdiv : ((a : ℕ) : ℚ) / ((totalFrames d r : ℕ) : ℚ) <
          ((c : ℕ) : ℚ) / ((totalFrames d r : ℕ) : ℚ) := by
        gcongr
      exact mul_lt_mul_of_pos_right hdiv hdpos
  · intro hd0
    rw [hd0]
    simp [sampleTimestamps, totalFrames, sampleIndices, sampleLoop]
  · rfl

/-- Witness for C1 at `duration = 2`, `baseRate = 30`, `maxFrames = 30`. -/
theorem c1_frame_sampler_witness :
    (0 : ℚ) ≤ 2 ∧ (0 : ℚ) < 30 ∧ 0 < 30 ∧
    ((∀ t ∈ sampleTimestamps 2 30 30, 0 ≤ t ∧ t < 2) ∧
     (sampleTimestamps 2 30 30).Pairwise (· < ·) ∧
     ((2 : ℚ) = 0 → sampleTimestamps 2 30 30 = []) ∧
     sampleTimestamps 2 30 30 =
       (sampleIndices (totalFrames 2 30) (frameSkip (totalFrames 2 30) 30)).map
         (fun i : ℕ => ((i : ℚ) / ((totalFrames 2 30 : ℕ) : ℚ)) * 2) ∧
     (∀ j : ℕ, j ∈ sampleIndices (totalFrames 2 30) (frameSkip (totalFrames 2 30) 30) ↔
       (j < totalFrames 2 30 ∧ frameSkip (totalFrames 2 30) 30 ∣ j))) :=
  ⟨by norm_num, by norm_num, by norm_num,
    c1_frame_sampler 2 30 30 (by norm_num) (by norm_num) (by norm_num)⟩

/-- C2 counterexample: with `duration = 1`, `baseRate = 10`, `maxFrames = 3` the
code has `totalFrames = 10`, `frameSkip = max(1, floor(10/3)) = 3`, and the loop
visits `0, 3, 6, 9` — four timestamps, exceeding `maxFrames = 3`. -/
theorem c2_counterexample : ¬ (sampleTimestamps 1 10 3).length ≤ 3 := by
  have h10 : totalFrames 1 10 = 10 := by
    unfold totalFrames
    norm_num
    rfl
  unfold sampleTimestamps
  rw [List.length_map, h10]
  decide

/-- C2 amended: the Frame Sampler produces at most `2 * maxFrames - 1`
timestamps (not `maxFrames`), and the frames committed by one extraction run
are bounded by the same budget, since at most one frame is decoded per sampled
timestamp. -/
theorem c2_amended (d r : ℚ) (mf : ℕ) (hmf : 0 < mf) (sched : CancelSchedule)
    (decodeOk : ℕ → Bool) :
    (sampleTimestamps d r mf).length ≤ 2 * mf - 1 ∧
    (extractRun (sampleIndices (totalFrames d r) (frameSkip (totalFrames d r) mf)) mf
      sched decodeOk).committed.length ≤ 2 * mf - 1 := by
  have h1 : (sampleIndices (totalFrames d r) (frameSkip (totalFrames d r) mf)).length ≤
      2 * mf - 1 := sampleIndices_length_le (totalFrames d r) mf hmf
  constructor
  · unfold sampleTimestamps
    rw [List.length_map]
    exact h1
  · exact le_trans (extractRun_committed_length_le _ mf sched decodeOk) h1

/-- Witness for C2's amended bound at `duration = 1`, `baseRate = 10`,
`maxFrames = 3` (where four timestamps are produced and `2*3 - 1 = 5`). -/
theorem c2_amended_witness :
    0 < 3 ∧
    ((sampleTimestamps 1 10 3).length ≤ 2 * 3 - 1 ∧
     (extractRun (sampleIndices (totalFrames 1 10) (frameSkip (totalFrames 1 10) 3)) 3
       CancelSchedule.never (fun _ => true)).committed.length ≤ 2 * 3 - 1) :=
  ⟨by norm_num, c2_amended 1 10 3 (by norm_num) CancelSchedule.never (fun _ => true)⟩

/-- C3: for every `frameCount > 0` and scroll progress `p`, the mapper selects
index `round(clamp(p, 0, 1) * (frameCount - 1))`; for `frameCount = 10`:
`p = 0` gives 0, `p = 1` gives 9, `p = 0.55` gives `round(4.95) = 5`,
`p = -0.2` clamps to 0, `p = 1.4` clamps to 9. -/
theorem c3_scroll_to_frame (n : ℕ) (p : ℚ) (hn : 0 < n) :
    frameIndexOnChange n p = round (clampQ 0 1 p * ((n : ℚ) - 1)) ∧
    frameIndexOnChange 10 0 = 0 ∧
    frameIndexOnChange 10 1 = 9 ∧
    frameIndexOnChange 10 (55 / 100) = 5 ∧
    frameIndexOnChange 10 (-(2 / 10)) = 0 ∧
    frameIndexOnChange 10 (14 / 10) = 9 := by
  refine ⟨?_, ?ex0, ?ex1, ?ex2, ?ex3, ?ex4⟩
  case ex0 => norm_num [frameIndexOnChange, transformValue, clampQ, min_def, max_def, round_eq]
  case ex1 => norm_num [frameIndexOnChange, transformValue, clampQ, min_def, max_def, round_eq]
  case ex2 => norm_num [frameIndexOnChange, transformValue, clampQ, min_def, max_def, round_eq]
  case ex3 => norm_num [frameIndexOnChange, transformValue, clampQ, min_def, max_def, round_eq]
  case ex4 => norm_num [frameIndexOnChange, transformValue, clampQ, min_def, max_def, round_eq]
  have hcl : 0 ≤ clampQ 0 1 p := le_min (le_max_right p 0) zero_le_one
  have hn1 : (1 : ℚ) ≤ (n : ℚ) := by exact_mod_cast hn
  have h0 : 0 ≤ clampQ 0 1 p * ((n : ℚ) - 1) := mul_nonneg hcl (by linarith)
  simp only [frameIndexOnChange, transformValue]
  rw [if_neg (not_lt.mpr h0)]

/-- Witness for C3 at `frameCount = 10`, `p = 0.55`. -/
theorem c3_scroll_to_frame_witness :
    0 < 10 ∧
    (frameIndexOnChange 10 (55 / 100) = round (clampQ 0 1 (55 / 100) * ((10 : ℚ) - 1)) ∧
     frameIndexOnChange 10 0 = 0 ∧
     frameIndexOnChange 10 1 = 9 ∧
     frameIndexOnChange 10 (55 / 100) = 5 ∧
     frameIndexOnChange 10 (-(2 / 10)) = 0 ∧
     frameIndexOnChange 10 (14 / 10) = 9) :=
  ⟨by decide, c3_scroll_to_frame 10 (55 / 100) (by decide)⟩

/-- C4 counterexample: the caller-observed `onLoadProgress` sequence of a
successful run is not monotone, because the mount effect's 500 ms timer
(scrolly-video.tsx lines 164–167) injects 100 into the same callback: for a
run of two decoded frames (`maxFrames = 30`) whose first decode outlasts the
timer, the caller observes `100, 3, 6, 100`. -/
theorem c4_counterexample :
    ¬ (observedProgress 0
        (extractRun [0, 1] 30 CancelSchedule.never (fun _ => true)).events).Pairwise
        (· ≤ ·) := by
  decide

/-- C4 amended: within one successful run, the extraction loop's own emissions
are `floor(count / maxFrames * 100)` for the count held at emission time, at
most 99 before the final one, final exactly 100, monotone non-decreasing; the
mount effect emits one further 100 on the same callback 500 ms after mount, so
the full caller-observed sequence is monotone (ending at 100) when that timer
fires at or after the run's final emission, and not in general otherwise. -/
theorem c4_progress_monotone (samples : List ℕ) (mf : ℕ) (decodeOk : ℕ → Bool)
    (timerPos : ℕ) :
    (extractRun samples mf CancelSchedule.never decodeOk).events.Pairwise (· ≤ ·) ∧
    (extractRun samples mf CancelSchedule.never decodeOk).events.getLast? = some 100 ∧
    (∀ e ∈ (extractRun samples mf CancelSchedule.never decodeOk).events.dropLast,
      e ≤ 99 ∧ ∃ c, 1 ≤ c ∧
        c ≤ (extractRun samples mf CancelSchedule.never decodeOk).committed.length ∧
        e = c * 100 / mf) ∧
    ((extractRun samples mf CancelSchedule.never decodeOk).events.length ≤ timerPos →
      (observedProgress timerPos
        (extractRun samples mf CancelSchedule.never decodeOk).events).Pairwise (· ≤ ·) ∧
      (observedProgress timerPos
        (extractRun samples mf CancelSchedule.never decodeOk).events).getLast? =
        some 100) := by
  have hinv := extractLoop_events_inv mf none decodeOk samples 0 [] []
    List.Pairwise.nil (by intro e he; simp at he)
  have hev := extractRun_never_events samples mf decodeOk
  have hcom := extractRun_never_committed samples mf decodeOk
  have hpw : (extractRun samples mf CancelSchedule.never decodeOk).events.Pairwise
      (· ≤ ·) := by
    rw [hev]
    refine List.pairwise_append.mpr ⟨hinv.1, List.pairwise_singleton _ _, ?_⟩
    intro a ha b hb
    rcases List.mem_singleton.mp hb with rfl
    have := (hinv.2 a ha).1
    omega
  have hall : ∀ e ∈ (extractRun samples mf CancelSchedule.never decodeOk).events,
      e ≤ 100 := by
    rw [hev]
    intro e he
    rcases List.mem_append.mp he with he | he
    · have := (hinv.2 e he).1
      omega
    · rcases List.mem_singleton.mp he with rfl
      exact le_refl _
  refine ⟨hpw, ?_, ?_, ?_⟩
  · rw [hev]
    exact List.getLast?_concat _
  · rw [hev, hcom, List.dropLast_concat]
    exact hinv.2
  · intro hlen
    unfold observedProgress mountTimerValue
    rw [List.take_all_of_le hlen, List.drop_eq_nil_of_le hlen, List.append_nil]
    constructor
    · refine List.pairwise_append.mpr ⟨hpw, List.pairwise_singleton _ _, ?_⟩
      intro a ha b hb
      rcases List.mem_singleton.mp hb with rfl
      exact hall a ha
    · exact List.getLast?_concat _

/-- Witness for C4's amended claim: a concrete run whose final emission
precedes the mount timer keeps the observed sequence monotone ending at 100. -/
theorem c4_progress_monotone_witness :
    (extractRun [0, 1] 30 CancelSchedule.never (fun _ => true)).events.length ≤ 3 ∧
    ((observedProgress 3
        (extractRun [0, 1] 30 CancelSchedule.never (fun _ => true)).events).Pairwise
        (· ≤ ·) ∧
     (observedProgress 3
        (extractRun [0, 1] 30 CancelSchedule.never (fun _ => true)).events).getLast? =
        some 100) :=
  ⟨by decide, (c4_progress_monotone [0, 1] 30 (fun _ => true) 3).2.2.2 (by decide)⟩

/-- C5 counterexample: when the flag is set while iteration 1's
`createImageBitmap` is in flight, the resumed continuation pushes that bitmap
into the reassigned array after the cleanup's close pass, so the run decoded
bitmaps `0` and `1` but only `0` is ever closed — not every bitmap the
cancelled run had decoded is released. -/
theorem c5_counterexample :
    ¬ (∀ j ∈ (extractRun [0, 1, 2] 30 (CancelSchedule.midDecode 1)
          (fun _ => true)).committed,
        j ∈ (extractRun [0, 1, 2] 30 (CancelSchedule.midDecode 1)
          (fun _ => true)).closed) := by
  decide

/-- C5 amended: once the cancellation flag is set, a cancelled run contributes
zero frames to the FrameStore visible to consumers under every schedule; when
the flag is set at a boundary/seek/buffer await, the cleanup closes every
bitmap the run decoded (all decoded strictly before the cancellation point)
and nothing leaks; when it is set during an in-flight `createImageBitmap`, the
cleanup's close pass covers exactly the bitmaps decoded before the flag, and
the one in-flight bitmap (if its creation succeeds) is pushed afterwards and
never released. -/
theorem c5_cancellation (samples : List ℕ) (mf c : ℕ) (decodeOk : ℕ → Bool)
    (hc : c ≤ samples.length) :
    ((extractRun samples mf (CancelSchedule.atBoundary c) decodeOk).visible = [] ∧
     (extractRun samples mf (CancelSchedule.atBoundary c) decodeOk).closed =
       (extractRun samples mf (CancelSchedule.atBoundary c) decodeOk).committed ∧
     (extractRun samples mf (CancelSchedule.atBoundary c) decodeOk).leaked = [] ∧
     ∀ j ∈ (extractRun samples mf (CancelSchedule.atBoundary c) decodeOk).committed,
       j < c) ∧
    ((extractRun samples mf (CancelSchedule.midDecode c) decodeOk).visible = [] ∧
     (extractRun samples mf (CancelSchedule.midDecode c) decodeOk).committed =
       (extractRun samples mf (CancelSchedule.midDecode c) decodeOk).closed ++
         (extractRun samples mf (CancelSchedule.midDecode c) decodeOk).leaked ∧
     (∀ j ∈ (extractRun samples mf (CancelSchedule.midDecode c) decodeOk).closed,
       j < c) ∧
     ((extractRun samples mf (CancelSchedule.midDecode c) decodeOk).leaked = [] ∨
      (extractRun samples mf (CancelSchedule.midDecode c) decodeOk).leaked = [c])) := by
  constructor
  · have hobs : cancelObserved (some c)
        (extractLoop mf (some c) decodeOk samples 0 [] []).2.2 = true := by
      rcases extractLoop_end_boundary mf (some c) decodeOk samples 0 [] [] with h | h
      · rw [h]
        simp only [cancelObserved, decide_eq_true_eq]
        omega
      · exact h
    rw [extractRun_atBoundary_cancelled samples mf c decodeOk hobs]
    refine ⟨rfl, rfl, rfl, ?_⟩
    exact extractLoop_committed_lt mf c decodeOk samples 0 [] []
      (by intro j hj; simp at hj)
  · have hclosed : ∀ j ∈ (extractLoop mf none decodeOk (samples.take c) 0 [] []).1,
        j < c := by
      intro j hj
      rcases extractLoop_committed_bound mf none decodeOk (samples.take c) 0 [] [] j hj
        with hj0 | hj0
      · simp at hj0
      · have htake : (samples.take c).length = min c samples.length :=
          List.length_take c samples
        omega
    by_cases hcond : c < samples.length ∧ decodeOk c = true
    · rw [extractRun_midDecode_pos samples mf c decodeOk hcond]
      exact ⟨rfl, rfl, hclosed, Or.inr rfl⟩
    · rw [extractRun_midDecode_neg samples mf c decodeOk hcond]
      exact ⟨rfl, (List.append_nil _).symm, hclosed, Or.inl rfl⟩

/-- Witness for C5's amended claim with three samples and cancellation point 1. -/
theorem c5_cancellation_witness :
    1 ≤ [5, 7, 9].length ∧
    (((extractRun [5, 7, 9] 30 (CancelSchedule.atBoundary 1) (fun _ => true)).visible =
        [] ∧
      (extractRun [5, 7, 9] 30 (CancelSchedule.atBoundary 1) (fun _ => true)).closed =
        (extractRun [5, 7, 9] 30 (CancelSchedule.atBoundary 1) (fun _ => true)).committed ∧
      (extractRun [5, 7, 9] 30 (CancelSchedule.atBoundary 1) (fun _ => true)).leaked =
        [] ∧
      ∀ j ∈ (extractRun [5, 7, 9] 30 (CancelSchedule.atBoundary 1)
          (fun _ => true)).committed, j < 1) ∧
     ((extractRun [5, 7, 9] 30 (CancelSchedule.midDecode 1) (fun _ => true)).visible =
        [] ∧
      (extractRun [5, 7, 9] 30 (CancelSchedule.midDecode 1) (fun _ => true)).committed =
        (extractRun [5, 7, 9] 30 (CancelSchedule.midDecode 1) (fun _ => true)).closed ++
          (extractRun [5, 7, 9] 30 (CancelSchedule.midDecode 1) (fun _ => true)).leaked ∧
      (∀ j ∈ (extractRun [5, 7, 9] 30 (CancelSchedule.midDecode 1)
          (fun _ => true)).closed, j < 1) ∧
      ((extractRun [5, 7, 9] 30 (CancelSchedule.midDecode 1) (fun _ => true)).leaked =
        [] ∨
       (extractRun [5, 7, 9] 30 (CancelSchedule.midDecode 1) (fun _ => true)).leaked =
        [1]))) :=
  ⟨by decide, c5_cancellation [5, 7, 9] 30 1 (fun _ => true) (by decide)⟩

/-- C9: for every run that enters the extraction loop, the run's final emitted
`onLoadProgress` value is 100 no matter how the loop exited: under any
cancellation point, and even when every bitmap creation fails, in which case
the run commits no frame and emits exactly `[100]`. -/
theorem c9_loop_exit_emits_100 (samples : List ℕ) (mf : ℕ) (sched : CancelSchedule)
    (decodeOk : ℕ → Bool) :
    (extractRun samples mf sched decodeOk).events.getLast? = some 100 ∧
    ((∀ j, decodeOk j = false) →
      (extractRun samples mf sched decodeOk).committed = [] ∧
      (extractRun samples mf sched decodeOk).events = [100]) := by
  refine ⟨extractRun_events_getLast samples mf sched decodeOk, ?_⟩
  intro hdok
  cases sched with
  | never =>
    have hfail := extractLoop_all_fail mf none decodeOk hdok samples 0 [] []
    rw [extractRun_never_committed, extractRun_never_events, hfail.1, hfail.2]
    exact ⟨rfl, rfl⟩
  | atBoundary c =>
    have hfail := extractLoop_all_fail mf (some c) decodeOk hdok samples 0 [] []
    unfold extractRun
    dsimp only
    split
    · rw [hfail.1, hfail.2]
      exact ⟨rfl, rfl⟩
    · rw [hfail.1, hfail.2]
      exact ⟨rfl, rfl⟩
  | midDecode c =>
    have hfail := extractLoop_all_fail mf none decodeOk hdok (samples.take c) 0 [] []
    have hneg : ¬ (c < samples.length ∧ decodeOk c = true) := by
      rintro ⟨-, hdc⟩
      rw [hdok c] at hdc
      cases hdc
    rw [extractRun_midDecode_neg samples mf c decodeOk hneg, hfail.1, hfail.2]
    exact ⟨rfl, rfl⟩

/-- Witness for C9: a run in which every bitmap creation fails still emits 100. -/
theorem c9_loop_exit_emits_100_witness :
    (extractRun [0, 1, 2] 30 CancelSchedule.never (fun _ => false)).events.getLast? =
      some 100 ∧
    ((∀ j : ℕ, (fun _ => false : ℕ → Bool) j = false) →
      (extractRun [0, 1, 2] 30 CancelSchedule.never (fun _ => false)).committed = [] ∧
      (extractRun [0, 1, 2] 30 CancelSchedule.never (fun _ => false)).events = [100]) :=
  c9_loop_exit_emits_100 [0, 1, 2] 30 CancelSchedule.never (fun _ => false)

/-- C6: for `frameCount = 0` and `frameCount = 1`, mapping any scroll progress
and rendering neither throws (all modelled functions are total) nor reads an
index outside `[0, FrameStore.length - 1]`: both frame counts map every
progress to index 0; with an empty FrameStore the draw issues no context call
and leaves any canvas content unchanged; with one frame, index 0 is in bounds
and holds a bitmap. -/
theorem c6_degenerate_frame_counts (p : ℚ) (b : Bitmap) (cw ch : ℚ) :
    frameIndexOnChange 0 p = 0 ∧
    drawImage [] cw ch (frameIndexOnChange 0 p).toNat = [] ∧
    (∀ s, applyOps s (drawImage [] cw ch (frameIndexOnChange 0 p).toNat) = s) ∧
    frameIndexOnChange 1 p = 0 ∧
    (frameIndexOnChange 1 p).toNat ≤ [b].length - 1 ∧
    [b].get? (frameIndexOnChange 1 p).toNat = some b := by
  have hcl : 0 ≤ clampQ 0 1 p := le_min (le_max_right p 0) zero_le_one
  have ht0 : transformValue 0 p = -(clampQ 0 1 p) := by
    simp [transformValue]
  have h00 : frameIndexOnChange 0 p = 0 := by
    simp only [frameIndexOnChange, ht0]
    by_cases hlt : -(clampQ 0 1 p) < 0
    · rw [if_pos hlt]
      exact round_zero
    · rw [if_neg hlt]
      have hz : clampQ 0 1 p = 0 := by
        have := not_lt.mp hlt
        linarith
      rw [hz, neg_zero]
      exact round_zero
  have ht1 : transformValue 1 p = 0 := by
    simp [transformValue]
  have h01 : frameIndexOnChange 1 p = 0 := by
    simp only [frameIndexOnChange, ht1]
    rw [if_neg (lt_irrefl 0)]
    exact round_zero
  refine ⟨h00, ?_, ?_, h01, ?_, ?_⟩
  · simp [drawImage]
  · intro s
    simp [drawImage, applyOps]
  · rw [h01]
    simp
  · rw [h01]
    rfl

/-- C7: the Canvas Renderer performs a top-aligned cover fit: when the frame is
wider than the surface (`a_f > a_s`) the draw height equals the surface height
and the draw width exceeds the surface width; in the inverse case the draw
width equals the surface width and the draw height is at least the surface
height; in all cases the draw call centers horizontally
(`offsetX = (surfaceWidth - drawWidth) / 2`) and anchors to the top
(`offsetY = 0`). -/
theorem c7_cover_fit (b : Bitmap) (cw ch : ℚ) (hbw : 0 < b.width) (hbh : 0 < b.height)
    (hcw : 0 < cw) (hch : 0 < ch) :
    (cw / ch < b.width / b.height →
      (coverFit b cw ch).2 = ch ∧ cw < (coverFit b cw ch).1) ∧
    (b.width / b.height < cw / ch →
      (coverFit b cw ch).1 = cw ∧ ch ≤ (coverFit b cw ch).2) ∧
    (∀ (frames : List Bitmap) (index : ℕ), frames.get? index = some b →
      drawImage frames cw ch index =
        [CanvasOp.clearRect 0 0 cw ch,
         CanvasOp.drawImageOp b ((cw - (coverFit b cw ch).1) / 2) 0
           (coverFit b cw ch).1 (coverFit b cw ch).2]) := by
  have ha : 0 < b.width / b.height := div_pos hbw hbh
  refine ⟨?_, ?_, ?_⟩
  · intro h1
    have h2 := mul_lt_mul_of_pos_right h1 hch
    rw [div_mul_cancel₀ _ (ne_of_gt hch)] at h2
    rw [mul_comm] at h2
    have hbranch : cw / (b.width / b.height) < ch := (div_lt_iff ha).mpr h2
    simp only [coverFit]
    rw [if_pos hbranch]
    exact ⟨rfl, h2⟩
  · intro h1
    have h2 := mul_lt_mul_of_pos_right h1 hch
    rw [div_mul_cancel₀ _ (ne_of_gt hch)] at h2
    have hbranch : ch < cw / (b.width / b.height) := (lt_div_iff ha).mpr (by
      rw [mul_comm] at h2
      exact h2)
    simp only [coverFit]
    rw [if_neg (not_lt.mpr (le_of_lt hbranch))]
    exact ⟨rfl, le_of_lt hbranch⟩
  · intro frames index hget
    unfold drawImage
    rw [hget]

/-- Witness for C7 with a 16:9 frame on a square surface (frame wider). -/
theorem c7_cover_fit_witness :
    (0 : ℚ) < (Bitmap.mk 16 9).width ∧ (0 : ℚ) < (Bitmap.mk 16 9).height ∧
    (0 : ℚ) < 100 ∧
    (((100 : ℚ) / 100 < (Bitmap.mk 16 9).width / (Bitmap.mk 16 9).height →
      (coverFit (Bitmap.mk 16 9) 100 100).2 = 100 ∧
        (100 : ℚ) < (coverFit (Bitmap.mk 16 9) 100 100).1) ∧
     ((Bitmap.mk 16 9).width / (Bitmap.mk 16 9).height < (100 : ℚ) / 100 →
      (coverFit (Bitmap.mk 16 9) 100 100).1 = 100 ∧
        (100 : ℚ) ≤ (coverFit (Bitmap.mk 16 9) 100 100).2) ∧
     (∀ (frames : List Bitmap) (index : ℕ),
        frames.get? index = some (Bitmap.mk 16 9) →
        drawImage frames 100 100 index =
          [CanvasOp.clearRect 0 0 100 100,
           CanvasOp.drawImageOp (Bitmap.mk 16 9)
             ((100 - (coverFit (Bitmap.mk 16 9) 100 100).1) / 2) 0
             (coverFit (Bitmap.mk 16 9) 100 100).1
             (coverFit (Bitmap.mk 16 9) 100 100).2])) :=
  ⟨by norm_num, by norm_num, by norm_num,
    c7_cover_fit (Bitmap.mk 16 9) 100 100 (by norm_num) (by norm_num)
      (by norm_num) (by norm_num)⟩

/-- C10: when the frame array holds no bitmap at the requested index the draw
operation issues no context call at all — in particular it does not clear, so
any previously drawn content survives unchanged; the clear-then-draw pair is
issued exactly when a bitmap exists at the index, and then the clear precedes
the draw, leaving exactly the new frame on the canvas. -/
theorem c10_missing_bitmap_preserves_canvas (frames : List Bitmap) (cw ch : ℚ)
    (index : ℕ) :
    (frames.get? index = none →
      drawImage frames cw ch index = [] ∧
      ∀ s, applyOps s (drawImage frames cw ch index) = s) ∧
    (∀ b, frames.get? index = some b →
      drawImage frames cw ch index =
        [CanvasOp.clearRect 0 0 cw ch,
         CanvasOp.drawImageOp b ((cw - (coverFit b cw ch).1) / 2) 0
           (coverFit b cw ch).1 (coverFit b cw ch).2] ∧
      ∀ s, applyOps s (drawImage frames cw ch index) =
        [CanvasOp.drawImageOp b ((cw - (coverFit b cw ch).1) / 2) 0
           (coverFit b cw ch).1 (coverFit b cw ch).2]) := by
  constructor
  · intro h
    constructor
    · unfold drawImage
      rw [h]
    · intro s
      unfold drawImage
      rw [h]
      rfl
  · intro b hb
    constructor
    · unfold drawImage
      rw [hb]
    · intro s
      unfold drawImage
      rw [hb]
      rfl

/-- Witness for C10: an empty frame array leaves any canvas content alone, and
a singleton frame array clears then draws. -/
theorem c10_missing_bitmap_preserves_canvas_witness :
    (drawImage [] 100 50 3 = [] ∧
      ∀ s, applyOps s (drawImage [] 100 50 3) = s) ∧
    (drawImage [Bitmap.mk 4 3] 100 50 0 =
        [CanvasOp.clearRect 0 0 100 50,
         CanvasOp.drawImageOp (Bitmap.mk 4 3)
           ((100 - (coverFit (Bitmap.mk 4 3) 100 50).1) / 2) 0
           (coverFit (Bitmap.mk 4 3) 100 50).1 (coverFit (Bitmap.mk 4 3) 100 50).2] ∧
      ∀ s, applyOps s (drawImage [Bitmap.mk 4 3] 100 50 0) =
        [CanvasOp.drawImageOp (Bitmap.mk 4 3)
           ((100 - (coverFit (Bitmap.mk 4 3) 100 50).1) / 2) 0
           (coverFit (Bitmap.mk 4 3) 100 50).1 (coverFit (Bitmap.mk 4 3) 100 50).2]) :=
  ⟨(c10_missing_bitmap_preserves_canvas [] 100 50 3).1 rfl,
   (c10_missing_bitmap_preserves_canvas [Bitmap.mk 4 3] 100 50 0).2 (Bitmap.mk 4 3) rfl⟩

/-- C8 counterexample: a run whose source/metadata probing fails is caught by
the component's run-level `catch`, which only logs to the console — the caller
receives zero callback invocations, not exactly one error signal, so the
failure is not surfaced to the caller via any error channel. -/
theorem c8_counterexample :
    ¬ (((extractFramesCallerEvents false [0] 30 none (fun _ => true)).1.filter
          (fun e => match e with
            | CallerEvent.errorSignal => true
            | CallerEvent.progress _ => false)).length = 1) := by
  simp [extractFramesCallerEvents]

/-- C8 amended: a source-fetch or metadata failure aborts the extraction run
and leaves the FrameStore empty, but the component surfaces no error to the
caller (it logs to the console and invokes no callback at all); the demux
helper `demuxVideoWithLibav`, by contrast, rejects exactly once to its caller
on a failed fetch or a missing video track; per-frame decode failures are
never propagated to the caller. -/
theorem c8_amended :
    (∀ (samples : List ℕ) (mf : ℕ) (cancelAt : Option ℕ) (decodeOk : ℕ → Bool),
      extractFramesCallerEvents false samples mf cancelAt decodeOk = ([], [])) ∧
    (∀ (packets : List Packet) (he : Bool) (cn : String),
      demuxVideoWithLibav false true packets he cn = Except.error "Failed to fetch" ∧
      demuxVideoWithLibav true false packets he cn = Except.error "No video track found") ∧
    (∀ (metadataOk : Bool) (samples : List ℕ) (mf : ℕ) (cancelAt : Option ℕ)
        (decodeOk : ℕ → Bool) (e : CallerEvent),
      e ∈ (extractFramesCallerEvents metadataOk samples mf cancelAt decodeOk).1 →
      e ≠ CallerEvent.errorSignal) := by
  refine ⟨?_, ?_, ?_⟩
  · intro samples mf cancelAt decodeOk
    rfl
  · intro packets he cn
    exact ⟨rfl, rfl⟩
  · intro metadataOk samples mf cancelAt decodeOk e he
    cases metadataOk with
    | false => simp [extractFramesCallerEvents] at he
    | true =>
      simp only [extractFramesCallerEvents, if_true] at he
      rcases List.mem_map.mp he with ⟨v, _, rfl⟩
      intro hcon
      cases hcon

/-- Witness for C8's amended statement: a successful run's events are all
progress invocations, never an error signal. -/
theorem c8_amended_witness :
    CallerEvent.progress 100 ∈
      (extractFramesCallerEvents true [] 30 none (fun _ => true)).1 ∧
    CallerEvent.progress 100 ≠ CallerEvent.errorSignal :=
  ⟨by simp [extractFramesCallerEvents, extractRun, extractLoop],
   c8_amended.2.2 true [] 30 none (fun _ => true) (CallerEvent.progress 100)
     (by simp [extractFramesCallerEvents, extractRun, extractLoop])⟩

end ScrollyVideo
